import Mathlib

/-!
Verification of the trending-push ingestion pipeline.

Shallow embedding of the Python sources:
  * `src/infrastructure/rate_limiter.py`   (`AdaptiveRateLimiter`)
  * `src/infrastructure/robots_checker.py` (crawl-delay surface)
  * `src/collectors/async_scraper.py`      (pre-request spacing)
  * `src/collectors/utils.py`              (`parse_github_number`)
  * `src/infrastructure/filters.py`        (`ProjectFilter.filter_by_stars`)
  * `src/core/trending_push.py`            (`_filter_duplicates`, keyword stage)
  * `src/analyzers/keyword_matcher.py`     (`KeywordMatcher`)
  * `src/analyzers/incremental_summary.py` (`should_regenerate_summary`)
  * `src/analyzers/async_ai_summarizer.py` (`batch_summarize`)

Python floats are modelled as `ℚ` (or, in the number decoder, as exact
scaled decimals); the operations involved are exact in the regime the
claims exercise.  Machine integers are `ℤ`/`ℕ`, wall-clock time is an
explicit `ℚ`-valued clock that sleeping advances, and fallible lookups are
`Option`/`Except`.
-/

/-- A scraped repository record, the dictionary produced by
`AsyncScraperTrending.parse_trending_page`.  `aiSummary` models the
`ai_summary` key added by the summarizer (absent = `""`). -/
structure Repo where
  name : String
  url : String := ""
  description : String
  language : String := ""
  stars : ℤ
  starsDaily : ℤ := 0
  starsWeekly : ℤ := 0
  starsMonthly : ℤ := 0
  aiSummary : String := ""
deriving DecidableEq, Repr

/-- The three trending time ranges used throughout the pipeline. -/
inductive TimeRange where
  | daily
  | weekly
  | monthly
deriving DecidableEq, Repr

/-- The per-range stars increment read by the star filter: the stars key
selected by the time range, 0 when the key is absent. -/
def Repo.starsFor (r : Repo) : TimeRange → ℤ
  | .daily => r.starsDaily
  | .weekly => r.starsWeekly
  | .monthly => r.starsMonthly

/-- State of `AdaptiveRateLimiter` (`rate_limiter.py`).  The locks and the
bounded request history are concurrency/telemetry plumbing that do not feed
back into the interval, so they are not part of the state. -/
structure AdaptiveRateLimiter where
  currentInterval : ℚ
  minInterval : ℚ
  maxInterval : ℚ
  lastRequestTime : ℚ
  successCount : ℕ
  errorCount : ℕ
deriving DecidableEq, Repr

/-- Models `AdaptiveRateLimiter.__init__(initial_rate, min_interval, max_interval)`:
`current_interval = 1.0 / initial_rate`, counters start at zero. -/
def AdaptiveRateLimiter.init (initialRate minInterval maxInterval : ℚ) :
    AdaptiveRateLimiter :=
  { currentInterval := 1 / initialRate
    minInterval := minInterval
    maxInterval := maxInterval
    lastRequestTime := 0
    successCount := 0
    errorCount := 0 }

/-- Models `record_success` / `record_success_async`: increment the success counter;
on reaching 10, multiply the interval by 0.9 floored at `min_interval` and
reset the counter. -/
def recordSuccess (rl : AdaptiveRateLimiter) : AdaptiveRateLimiter :=
  if 10 ≤ rl.successCount + 1 then
    { rl with
        currentInterval := max rl.minInterval (rl.currentInterval * (9 / 10))
        successCount := 0 }
  else
    { rl with successCount := rl.successCount + 1 }

/-- Models `record_error` / `record_error_async`: increment the error counter; a
rate-limited error doubles the interval capped at `max_interval` and resets
the counter; otherwise every third consecutive error multiplies the interval
by 1.5 capped at `max_interval`. -/
def recordError (rl : AdaptiveRateLimiter) (isRateLimit : Bool) :
    AdaptiveRateLimiter :=
  if isRateLimit then
    { rl with
        currentInterval := min rl.maxInterval (rl.currentInterval * 2)
        errorCount := 0 }
  else if 3 ≤ rl.errorCount + 1 then
    { rl with
        currentInterval := min rl.maxInterval (rl.currentInterval * (3 / 2))
        errorCount := 0 }
  else
    { rl with errorCount := rl.errorCount + 1 }

/-- The sleep performed by `wait_async` when entered at wall-clock time
`now`: top the elapsed time since `last_request_time` up to
`current_interval`, sleeping nothing if the interval has already elapsed. -/
def waitDuration (rl : AdaptiveRateLimiter) (now : ℚ) : ℚ :=
  if now - rl.lastRequestTime < rl.currentInterval then
    rl.currentInterval - (now - rl.lastRequestTime)
  else 0

/-- The `if recommended_delay:` sleep in `scrape_trending_by_range`: `None`
and `0.0` are falsy, so they sleep nothing. -/
def crawlSleepDuration (d : Option ℚ) : ℚ :=
  match d with
  | none => 0
  | some v => if v = 0 then 0 else v

/-- Total pre-request delay inserted by the pipeline for one scrape starting
at `startTime`: `scrape_trending_by_range` first sleeps the robots.txt
crawl delay, then `fetch_page` runs `rate_limiter.wait_async()` at the
advanced clock. -/
def preRequestSpacing (rl : AdaptiveRateLimiter) (d : Option ℚ)
    (startTime : ℚ) : ℚ :=
  crawlSleepDuration d + waitDuration rl (startTime + crawlSleepDuration d)

/-- C1: when the politeness checker returns crawl delay `d`, the crawl-delay
sleep and the rate-limiter wait together insert exactly
`max d current_interval` of spacing (measured from the last request time
of the limiter): `wait_async` only tops the already-elapsed crawl-delay sleep
up to the interval, so the two delays are never added. -/
theorem preRequestSpacing_eq_max (rl : AdaptiveRateLimiter) (d : ℚ)
    (startTime : ℚ) (h : startTime = rl.lastRequestTime) :
    preRequestSpacing rl (some d) startTime = max d rl.currentInterval := by
  subst h
  have hcs : crawlSleepDuration (some d) = d := by
    show (if d = 0 then 0 else d) = d
    split <;> simp_all
  unfold preRequestSpacing waitDuration
  rw [hcs]
  have harith : rl.lastRequestTime + d - rl.lastRequestTime = d := by ring
  rw [harith]
  rcases lt_or_le d rl.currentInterval with hlt | hge
  · rw [if_pos hlt, max_eq_right hlt.le]
    ring
  · rw [if_neg (not_lt.mpr hge), max_eq_left hge]
    ring

/-- Witness for `preRequestSpacing_eq_max` at a concrete limiter state. -/
theorem preRequestSpacing_eq_max_witness :
    preRequestSpacing
      (AdaptiveRateLimiter.init 1 (1 / 10) 10) (some 2) 0 = 2 := by
  have h := preRequestSpacing_eq_max (AdaptiveRateLimiter.init 1 (1 / 10) 10)
    2 0 rfl
  rw [h]
  norm_num [AdaptiveRateLimiter.init]

/-- Iterates `record_success()` for the given number of calls. -/
def recordSuccessIter (rl : AdaptiveRateLimiter) : ℕ → AdaptiveRateLimiter
  | 0 => rl
  | n + 1 => recordSuccess (recordSuccessIter rl n)

/-- Iterates `record_error(is_rate_limit=True)` for the given number of
calls. -/
def recordRateLimitIter (rl : AdaptiveRateLimiter) : ℕ → AdaptiveRateLimiter
  | 0 => rl
  | n + 1 => recordError (recordRateLimitIter rl n) true

/-- The interval stays within the configured `[min_interval, max_interval]`
band. -/
def intervalInBounds (rl : AdaptiveRateLimiter) : Prop :=
  rl.minInterval ≤ rl.currentInterval ∧ rl.currentInterval ≤ rl.maxInterval

theorem recordSuccess_minInterval (rl : AdaptiveRateLimiter) :
    (recordSuccess rl).minInterval = rl.minInterval := by
  unfold recordSuccess
  split <;> rfl

theorem recordSuccess_maxInterval (rl : AdaptiveRateLimiter) :
    (recordSuccess rl).maxInterval = rl.maxInterval := by
  unfold recordSuccess
  split <;> rfl

theorem recordError_minInterval (rl : AdaptiveRateLimiter) (b : Bool) :
    (recordError rl b).minInterval = rl.minInterval := by
  unfold recordError
  split
  · rfl
  · split <;> rfl

theorem recordError_maxInterval (rl : AdaptiveRateLimiter) (b : Bool) :
    (recordError rl b).maxInterval = rl.maxInterval := by
  unfold recordError
  split
  · rfl
  · split <;> rfl

theorem intervalInBounds_recordSuccess (rl : AdaptiveRateLimiter)
    (h0 : 0 ≤ rl.minInterval) (hb : intervalInBounds rl) :
    intervalInBounds (recordSuccess rl) := by
  obtain ⟨hlo, hhi⟩ := hb
  unfold intervalInBounds recordSuccess
  split
  · constructor
    · exact le_max_left _ _
    · apply max_le (hlo.trans hhi)
      nlinarith
  · exact ⟨hlo, hhi⟩

theorem intervalInBounds_recordError (rl : AdaptiveRateLimiter)
    (h0 : 0 ≤ rl.minInterval) (hb : intervalInBounds rl) (b : Bool) :
    intervalInBounds (recordError rl b) := by
  obtain ⟨hlo, hhi⟩ := hb
  unfold intervalInBounds recordError
  split
  · constructor
    · apply le_min (hlo.trans hhi)
      nlinarith
    · exact min_le_left _ _
  · split
    · constructor
      · apply le_min (hlo.trans hhi)
        nlinarith
      · exact min_le_left _ _
    · exact ⟨hlo, hhi⟩

theorem recordError_rateLimit_mono (rl : AdaptiveRateLimiter)
    (h0 : 0 ≤ rl.currentInterval) (hhi : rl.currentInterval ≤ rl.maxInterval) :
    rl.currentInterval ≤ (recordError rl true).currentInterval := by
  unfold recordError
  simp only [if_pos]
  apply le_min hhi
  nlinarith

theorem recordRateLimitIter_fields (rl : AdaptiveRateLimiter) (n : ℕ) :
    (recordRateLimitIter rl n).minInterval = rl.minInterval ∧
      (recordRateLimitIter rl n).maxInterval = rl.maxInterval := by
  induction n with
  | zero => exact ⟨rfl, rfl⟩
  | succ n ih =>
    unfold recordRateLimitIter
    rw [recordError_minInterval, recordError_maxInterval]
    exact ih

theorem recordRateLimitIter_inBounds (rl : AdaptiveRateLimiter)
    (h0 : 0 ≤ rl.minInterval) (hb : intervalInBounds rl) (n : ℕ) :
    intervalInBounds (recordRateLimitIter rl n) := by
  induction n with
  | zero => exact hb
  | succ n ih =>
    unfold recordRateLimitIter
    have hf := recordRateLimitIter_fields rl n
    have h0' : 0 ≤ (recordRateLimitIter rl n).minInterval := by
      rw [hf.1]; exact h0
    exact intervalInBounds_recordError _ h0' ih true

/-- C5: under every `record_success`/`record_error` operation the interval
stays inside `[min_interval, max_interval]`, and along any run of
rate-limited `record_error(is_rate_limited=true)` calls the interval is
non-decreasing and never exceeds `max_interval`. -/
theorem rateLimiter_interval_bounds (rl : AdaptiveRateLimiter)
    (h0 : 0 ≤ rl.minInterval) (hb : intervalInBounds rl) :
    (∀ n, (recordRateLimitIter rl n).currentInterval ≤
        (recordRateLimitIter rl (n + 1)).currentInterval) ∧
    (∀ n, (recordRateLimitIter rl n).currentInterval ≤ rl.maxInterval) ∧
    intervalInBounds (recordSuccess rl) ∧
    (∀ b, intervalInBounds (recordError rl b)) := by
  refine ⟨?_, ?_, ?_, ?_⟩
  · intro n
    have hib := recordRateLimitIter_inBounds rl h0 hb n
    have hf := recordRateLimitIter_fields rl n
    have h0c : 0 ≤ (recordRateLimitIter rl n).currentInterval := by
      have := hib.1
      rw [hf.1] at this
      linarith
    have hhi : (recordRateLimitIter rl n).currentInterval ≤
        (recordRateLimitIter rl n).maxInterval := hib.2
    exact recordError_rateLimit_mono _ h0c hhi
  · intro n
    have hib := recordRateLimitIter_inBounds rl h0 hb n
    have hf := recordRateLimitIter_fields rl n
    have := hib.2
    rwa [hf.2] at this
  · exact intervalInBounds_recordSuccess rl h0 hb
  · exact fun b => intervalInBounds_recordError rl h0 hb b

/-- Witness for `rateLimiter_interval_bounds` at a concrete limiter state. -/
theorem rateLimiter_interval_bounds_witness :
    (recordRateLimitIter (AdaptiveRateLimiter.init 1 (1 / 10) 10)
        5).currentInterval ≤ 10 := by
  have h := rateLimiter_interval_bounds (AdaptiveRateLimiter.init 1 (1 / 10) 10)
    (by norm_num [AdaptiveRateLimiter.init])
    (by constructor <;> norm_num [AdaptiveRateLimiter.init])
  exact h.2.1 5

theorem recordSuccessIter_add (rl : AdaptiveRateLimiter) (a b : ℕ) :
    recordSuccessIter rl (a + b) =
      recordSuccessIter (recordSuccessIter rl a) b := by
  induction b with
  | zero => rfl
  | succ b ih =>
    rw [Nat.add_succ]
    show recordSuccess (recordSuccessIter rl (a + b)) = _
    rw [ih]
    rfl

theorem recordSuccessIter_lt_ten (rl : AdaptiveRateLimiter)
    (h0 : rl.successCount = 0) (k : ℕ) (hk : k ≤ 9) :
    recordSuccessIter rl k = { rl with successCount := k } := by
  induction k with
  | zero =>
    show rl = _
    rw [← h0]
  | succ k ih =>
    show recordSuccess (recordSuccessIter rl k) = _
    rw [ih (by omega)]
    unfold recordSuccess
    rw [if_neg (by simp only []; omega)]

theorem recordSuccessIter_ten (rl : AdaptiveRateLimiter)
    (h0 : rl.successCount = 0) :
    recordSuccessIter rl 10 =
      { rl with
          currentInterval := max rl.minInterval (rl.currentInterval * (9 / 10))
          successCount := 0 } := by
  show recordSuccess (recordSuccessIter rl 9) = _
  rw [recordSuccessIter_lt_ten rl h0 9 (by omega)]
  unfold recordSuccess
  rw [if_pos (by simp only []; omega)]

/-- One application of the speed-up rule: 0.9 × interval, floored at the
minimum. -/
def decayStep (m i : ℚ) : ℚ := max m (i * (9 / 10))

theorem decayStep_iter (m i : ℚ) (h0 : 0 ≤ m) (hle : m ≤ i) (k : ℕ) :
    (decayStep m)^[k] i = max m ((9 / 10) ^ k * i) := by
  induction k with
  | zero =>
    rw [Function.iterate_zero_apply, pow_zero, one_mul, max_eq_right hle]
  | succ k ih =>
    rw [Function.iterate_succ_apply', ih]
    unfold decayStep
    rw [max_mul_of_nonneg _ _ (by norm_num : (0 : ℚ) ≤ 9 / 10)]
    rw [← max_assoc]
    rw [max_eq_left (by nlinarith : m * (9 / 10) ≤ m)]
    ring_nf

theorem recordSuccessIter_blocks (rl : AdaptiveRateLimiter)
    (h0 : rl.successCount = 0) (k : ℕ) :
    recordSuccessIter rl (10 * k) =
      { rl with
          currentInterval := (decayStep rl.minInterval)^[k] rl.currentInterval
          successCount := 0 } := by
  induction k with
  | zero =>
    rw [Nat.mul_zero]
    show rl = _
    rw [Function.iterate_zero_apply, ← h0]
  | succ k ih =>
    rw [Nat.mul_succ, recordSuccessIter_add, ih]
    rw [recordSuccessIter_ten _ rfl]
    rw [Function.iterate_succ_apply']
    rfl

/-- C4: from a state with the success counter at zero, fewer than 10
consecutive `record_success()` calls leave `current_interval` unchanged; the
10th multiplies it by 0.9 floored at `min_interval` and resets the counter;
while the interval exceeds `min_interval` the 10-call block strictly
decreases it; at `min_interval` it holds there forever; and some number of
10-call blocks reaches `min_interval` exactly. -/
theorem recordSuccess_speedup (rl : AdaptiveRateLimiter)
    (h0 : rl.successCount = 0) (hmin : 0 < rl.minInterval)
    (hge : rl.minInterval ≤ rl.currentInterval) :
    (∀ k, k < 10 →
        (recordSuccessIter rl k).currentInterval = rl.currentInterval) ∧
    (recordSuccessIter rl 10).currentInterval =
        max rl.minInterval (rl.currentInterval * (9 / 10)) ∧
    (recordSuccessIter rl 10).successCount = 0 ∧
    (rl.minInterval < rl.currentInterval →
        (recordSuccessIter rl 10).currentInterval < rl.currentInterval) ∧
    (rl.currentInterval = rl.minInterval →
        ∀ n, (recordSuccessIter rl n).currentInterval = rl.minInterval) ∧
    ∃ m, (recordSuccessIter rl (10 * m)).currentInterval = rl.minInterval := by
  refine ⟨?_, ?_, ?_, ?_, ?_, ?_⟩
  · intro k hk
    rw [recordSuccessIter_lt_ten rl h0 k (by omega)]
  · rw [recordSuccessIter_ten rl h0]
  · rw [recordSuccessIter_ten rl h0]
  · intro hlt
    rw [recordSuccessIter_ten rl h0]
    exact max_lt hlt (by nlinarith)
  · intro heq n
    have key : ∀ j, (recordSuccessIter rl j).currentInterval = rl.minInterval ∧
        (recordSuccessIter rl j).minInterval = rl.minInterval := by
      intro j
      induction j with
      | zero => exact ⟨heq, rfl⟩
      | succ j ih =>
        obtain ⟨hci, hmi⟩ := ih
        constructor
        · show (recordSuccess (recordSuccessIter rl j)).currentInterval = _
          unfold recordSuccess
          split
          · show max _ _ = _
            rw [hci, hmi, max_eq_left (by nlinarith)]
          · exact hci
        · show (recordSuccess (recordSuccessIter rl j)).minInterval = _
          rw [recordSuccess_minInterval]
          exact hmi
    exact (key n).1
  · have hipos : 0 < rl.currentInterval := lt_of_lt_of_le hmin hge
    obtain ⟨m, hm⟩ := exists_pow_lt_of_lt_one
      (div_pos hmin hipos) (by norm_num : (9 / 10 : ℚ) < 1)
    refine ⟨m, ?_⟩
    rw [recordSuccessIter_blocks rl h0 m]
    show (decayStep rl.minInterval)^[m] rl.currentInterval = _
    rw [decayStep_iter _ _ hmin.le hge m]
    apply max_eq_left
    have h2 : (9 / 10 : ℚ) ^ m * rl.currentInterval < rl.minInterval :=
      (lt_div_iff₀ hipos).mp hm
    exact le_of_lt h2

/-- Witness for `recordSuccess_speedup` at a concrete limiter state. -/
theorem recordSuccess_speedup_witness :
    (recordSuccessIter (AdaptiveRateLimiter.init 1 (1 / 10) 10)
        10).currentInterval = 9 / 10 := by
  have h := recordSuccess_speedup (AdaptiveRateLimiter.init 1 (1 / 10) 10)
    rfl (by norm_num [AdaptiveRateLimiter.init])
    (by norm_num [AdaptiveRateLimiter.init])
  rw [h.2.1]
  show max (1 / 10 : ℚ) (1 / 1 * (9 / 10)) = 9 / 10
  rw [max_eq_right (by norm_num)]
  norm_num

/-- Configuration read by `ProjectFilter.__init__`:
`min_total_stars` and the per-range `min_stars_increment` dictionary
(`dict.get(time_range, 0)`). -/
structure FilterConfig where
  minTotalStars : ℤ
  minStarsIncrement : TimeRange → ℤ

/-- The per-repository decision of the loop body of
`ProjectFilter.filter_by_stars`: drop below the total-star floor; when a
positive increment floor is configured, drop only a repo whose increment is
strictly positive yet below the floor (a zero increment skips the increment
check). -/
def keepByStars (cfg : FilterConfig) (tr : TimeRange) (r : Repo) : Bool :=
  if r.stars < cfg.minTotalStars then false
  else if 0 < cfg.minStarsIncrement tr ∧ 0 < r.starsFor tr ∧
      r.starsFor tr < cfg.minStarsIncrement tr then false
  else true

/-- Models `ProjectFilter.filter_by_stars(repos, time_range,
ignore_thresholds)`. -/
def filter_by_stars (cfg : FilterConfig) (repos : List Repo) (tr : TimeRange)
    (ignoreThresholds : Bool) : List Repo :=
  if repos.isEmpty then []
  else if ignoreThresholds then repos
  else repos.filter (keepByStars cfg tr)

/-- C6: without the cold-start override, every candidate retained by the
star filter meets the total-star floor (so below-floor candidates are
always excluded, whatever their increment), and a candidate meeting the
floor whose period increment is exactly 0 is always retained, even under a
positive configured increment floor. -/
theorem filterByStars_floor_and_zero_increment (cfg : FilterConfig)
    (repos : List Repo) (tr : TimeRange) :
    (∀ r ∈ filter_by_stars cfg repos tr false,
        cfg.minTotalStars ≤ r.stars) ∧
    (∀ r ∈ repos, cfg.minTotalStars ≤ r.stars → r.starsFor tr = 0 →
        r ∈ filter_by_stars cfg repos tr false) := by
  constructor
  · intro r hr
    unfold filter_by_stars at hr
    by_cases he : repos.isEmpty
    · rw [if_pos he] at hr
      exact absurd hr (List.not_mem_nil r)
    · rw [if_neg he] at hr
      simp only [Bool.false_eq_true, if_false] at hr
      have hk := (List.mem_filter.mp hr).2
      unfold keepByStars at hk
      by_cases hs : r.stars < cfg.minTotalStars
      · rw [if_pos hs] at hk
        exact absurd hk (by simp)
      · exact not_lt.mp hs
  · intro r hr hfloor hzero
    rcases repos with _ | ⟨a, as⟩
    · exact absurd hr (List.not_mem_nil r)
    · unfold filter_by_stars
      simp only [List.isEmpty_cons, Bool.false_eq_true, if_false]
      refine List.mem_filter.mpr ⟨hr, ?_⟩
      unfold keepByStars
      rw [if_neg (not_lt.mpr hfloor)]
      rw [if_neg ?_]
      rintro ⟨-, h2, -⟩
      rw [hzero] at h2
      exact lt_irrefl 0 h2

/-- Witness for `filterByStars_floor_and_zero_increment`: a repo above the
floor with a zero daily increment survives a positive increment floor. -/
theorem filterByStars_floor_and_zero_increment_witness :
    ({ name := "a", description := "", stars := 500, starsDaily := 0 } : Repo)
      ∈ filter_by_stars
        ⟨100, fun _ => 50⟩
        [{ name := "a", description := "", stars := 500, starsDaily := 0 }]
        TimeRange.daily false := by
  exact (filterByStars_floor_and_zero_increment ⟨100, fun _ => 50⟩
      [{ name := "a", description := "", stars := 500, starsDaily := 0 }]
      TimeRange.daily).2
    { name := "a", description := "", stars := 500, starsDaily := 0 }
    (by simp) (by norm_num) rfl

/-- Models `TrendingPush._filter_duplicates`: with the seen-set read from storage
(the `try` body), keep exactly the repos whose name is not in it; if
`get_seen_projects` raises (the `except` branch), return the input list
unchanged. -/
def filterDuplicates (seenResult : Except String (Finset String))
    (repos : List Repo) : List Repo :=
  match seenResult with
  | .ok seen => repos.filter (fun r => decide (r.name ∉ seen))
  | .error _ => repos

/-- The `filtered_count = len(repos) - len(new_repos)` the method logs. -/
def duplicatesRemoved (seenResult : Except String (Finset String))
    (repos : List Repo) : ℕ :=
  repos.length - (filterDuplicates seenResult repos).length

theorem length_sub_filter_not (q : Repo → Bool) (l : List Repo) :
    l.length - (l.filter (fun r => !(q r))).length = l.countP q := by
  induction l with
  | nil => rfl
  | cons a t ih =>
    have hle := List.length_filter_le (fun r => !(q r)) t
    by_cases h : q a = true
    · simp [List.filter_cons, List.countP_cons, h]
      omega
    · simp [List.filter_cons, List.countP_cons, h]
      omega

/-- C7: with a successfully read seen-set, deduplication keeps exactly the
candidates whose identity is not in the set, in original order (the result
is a sublist of the input), and the removed count is the number of input
occurrences whose identity is in the set. -/
theorem filterDuplicates_ok_spec (seen : Finset String) (repos : List Repo) :
    List.Sublist (filterDuplicates (Except.ok seen) repos) repos ∧
    (∀ r, r ∈ filterDuplicates (Except.ok seen) repos ↔
        r ∈ repos ∧ r.name ∉ seen) ∧
    duplicatesRemoved (Except.ok seen) repos =
      repos.countP (fun r => decide (r.name ∈ seen)) := by
  refine ⟨List.filter_sublist repos, ?_, ?_⟩
  · intro r
    constructor
    · intro hr
      have := List.mem_filter.mp hr
      exact ⟨this.1, of_decide_eq_true this.2⟩
    · intro ⟨h1, h2⟩
      exact List.mem_filter.mpr ⟨h1, decide_eq_true h2⟩
  · show repos.length -
        (List.filter (fun r => decide (r.name ∉ seen)) repos).length = _
    have hfun : (fun r : Repo => decide (r.name ∉ seen)) =
        (fun r : Repo => !(decide (r.name ∈ seen))) :=
      funext fun r => decide_not
    rw [hfun]
    exact length_sub_filter_not (fun r => decide (r.name ∈ seen)) repos

/-- C10: if reading the seen-set raises, deduplication fails open — the
input list is returned unchanged (every candidate passes through) and the
logged removed count is zero; no error propagates since the decision is a
total function. -/
theorem filterDuplicates_error_passthrough (e : String) (repos : List Repo) :
    filterDuplicates (Except.error e) repos = repos ∧
      duplicatesRemoved (Except.error e) repos = 0 := by
  refine ⟨rfl, ?_⟩
  unfold duplicatesRemoved filterDuplicates
  exact Nat.sub_self _

/-- Row returned by `get_summary_with_metadata`: creation time (days, on the
same clock as `now`) and the description recorded with the summary. -/
structure SummaryMetadata where
  createdAt : ℚ
  description : String

/-- Configuration read by `IncrementalSummaryManager.__init__`
(`cache_expiry_days` default 7, `stars_growth_threshold` default 0.2,
`force_refresh` default false). -/
structure IncrementalConfig where
  cacheExpiryDays : ℚ
  starsGrowthThreshold : ℚ
  forceRefresh : Bool

/-- Models `IncrementalSummaryManager.should_regenerate_summary`.  `now` is
`datetime.now()` in days; the two repository lookups are passed in as the
`Option` results `get_summary_with_metadata` and `get_latest_stars` return.
The Python reason string carries the growth percentage; here the
`"stars_growth"` tag stands for it (the decision flag is what the claims
are about). -/
def should_regenerate_summary (cfg : IncrementalConfig) (now : ℚ)
    (summaryMetadata : Option SummaryMetadata) (cachedStars : Option ℤ)
    (repo : Repo) : Bool × String :=
  if cfg.forceRefresh then (true, "force_refresh")
  else
    match summaryMetadata with
    | none => (true, "no_cache")
    | some md =>
      if cfg.cacheExpiryDays < now - md.createdAt then (true, "cache_expired")
      else if md.description ≠ repo.description then
        (true, "description_changed")
      else
        match cachedStars with
        | some cs =>
          if 0 < cs ∧ 0 < repo.stars ∧
              cfg.starsGrowthThreshold ≤ ((repo.stars : ℚ) - cs) / cs then
            (true, "stars_growth")
          else (false, "cache_hit")
        | none => (false, "cache_hit")

set_option maxHeartbeats 1000000 in
/-- C2: for a non-negative growth threshold the cache decision regenerates
iff force-refresh is set, or there is no cached entry, or the entry is
older than the expiry, or the cached and current descriptions differ, or
the star growth over a positive recorded star count reaches the threshold;
and with a missing or zero recorded star count the growth rule alone never
triggers (the decision is a total function, so no lookup outcome raises). -/
theorem should_regenerate_iff (cfg : IncrementalConfig) (now : ℚ)
    (md : Option SummaryMetadata) (cs : Option ℤ) (repo : Repo)
    (hth : 0 ≤ cfg.starsGrowthThreshold) :
    ((should_regenerate_summary cfg now md cs repo).1 = true ↔
      cfg.forceRefresh = true ∨
      md = none ∨
      (∃ m, md = some m ∧ cfg.cacheExpiryDays < now - m.createdAt) ∨
      (∃ m, md = some m ∧ m.description ≠ repo.description) ∨
      (∃ c, cs = some c ∧ 0 < c ∧
        cfg.starsGrowthThreshold ≤ ((repo.stars : ℚ) - c) / c)) ∧
    ((cs = none ∨ cs = some 0) →
      ((should_regenerate_summary cfg now md cs repo).1 = true ↔
        cfg.forceRefresh = true ∨
        md = none ∨
        (∃ m, md = some m ∧ cfg.cacheExpiryDays < now - m.createdAt) ∨
        (∃ m, md = some m ∧ m.description ≠ repo.description))) := by
  have main : (should_regenerate_summary cfg now md cs repo).1 = true ↔
      cfg.forceRefresh = true ∨
      md = none ∨
      (∃ m, md = some m ∧ cfg.cacheExpiryDays < now - m.createdAt) ∨
      (∃ m, md = some m ∧ m.description ≠ repo.description) ∨
      (∃ c, cs = some c ∧ 0 < c ∧
        cfg.starsGrowthThreshold ≤ ((repo.stars : ℚ) - c) / c) := by
    unfold should_regenerate_summary
    by_cases hf : cfg.forceRefresh = true
    · simp [hf]
    · rcases md with _ | m
      · simp [hf]
      · by_cases hexp : cfg.cacheExpiryDays < now - m.createdAt
        · simp [hf, hexp]
        · by_cases hdesc : m.description = repo.description
          case neg => simp [hf, hexp, hdesc]
          case pos =>
            rcases cs with _ | c
            · simp [hf, hexp, hdesc]
            · by_cases hg1 : 0 < c
              · by_cases hg3 : cfg.starsGrowthThreshold ≤
                    ((repo.stars : ℚ) - c) / c
                · have hstars : 0 < repo.stars := by
                    have hcq : (0 : ℚ) < (c : ℚ) := by exact_mod_cast hg1
                    have h0r : (0 : ℚ) ≤ ((repo.stars : ℚ) - c) / c :=
                      le_trans hth hg3
                    have h1 : (0 : ℚ) * c ≤ (repo.stars : ℚ) - c :=
                      (le_div_iff₀ hcq).mp h0r
                    have h2 : (0 : ℚ) < (repo.stars : ℚ) := by linarith
                    exact_mod_cast h2
                  simp [hf, hexp, hdesc, hg1, hg3, hstars]
                · simp [hf, hexp, hdesc, hg3]
              · simp [hf, hexp, hdesc, hg1]
  refine ⟨main, ?_⟩
  intro hcs
  rw [main]
  have hng : ¬ ∃ c, cs = some c ∧ 0 < c ∧
      cfg.starsGrowthThreshold ≤ ((repo.stars : ℚ) - c) / c := by
    rcases hcs with rfl | rfl
    · rintro ⟨c, hc, -, -⟩
      exact Option.noConfusion hc
    · rintro ⟨c, hc, h1, -⟩
      rw [Option.some.injEq] at hc
      omega
  constructor
  · rintro (h | h | h | h | h)
    · exact Or.inl h
    · exact Or.inr (Or.inl h)
    · exact Or.inr (Or.inr (Or.inl h))
    · exact Or.inr (Or.inr (Or.inr h))
    · exact absurd h hng
  · rintro (h | h | h | h)
    · exact Or.inl h
    · exact Or.inr (Or.inl h)
    · exact Or.inr (Or.inr (Or.inl h))
    · exact Or.inr (Or.inr (Or.inr (Or.inl h)))

/-- Witness for `should_regenerate_iff`: with the default thresholds
(expiry 7 days, growth 0.2), a fresh cache with an identical description
but stars grown 100 → 120 regenerates. -/
theorem should_regenerate_iff_witness :
    (should_regenerate_summary ⟨7, 1 / 5, false⟩ 3
      (some ⟨0, "d"⟩) (some 100)
      { name := "r", description := "d", stars := 120 }).1 = true := by
  have h := (should_regenerate_iff ⟨7, 1 / 5, false⟩ 3
    (some ⟨0, "d"⟩) (some 100)
    { name := "r", description := "d", stars := 120 } (by norm_num)).1
  rw [h]
  right; right; right; right
  refine ⟨100, rfl, by norm_num, ?_⟩
  push_cast
  norm_num

/-- Outcome of one `generate_summary` task as observed by
`asyncio.gather(..., return_exceptions=True)` in `batch_summarize`: a
raised exception, or the `Optional[str]` the coroutine returned (`None`
after every provider call failed or exhausted its retries). -/
inductive SummaryOutcome where
  | exn
  | result (s : Option String)
deriving DecidableEq, Repr

/-- The per-item branch of the collection loop in `batch_summarize`:
exceptions get the failure fallback, a truthy string is kept, and `None` or
an empty string gets the plain-intro fallback — each fallback appends the
original description of the item to its marker. -/
def applySummary (repo : Repo) (o : SummaryOutcome) : Repo :=
  match o with
  | .exn => { repo with aiSummary := "摘要生成失败: " ++ repo.description }
  | .result (some s) =>
      if s = "" then { repo with aiSummary := "项目简介: " ++ repo.description }
      else { repo with aiSummary := s }
  | .result none => { repo with aiSummary := "项目简介: " ++ repo.description }

/-- Models `AsyncAISummarizer.batch_summarize`: empty input short-circuits to `[]`;
with no usable model the input is returned untouched; otherwise the gather
outcomes are collected positionally into copies of the input repos. -/
def batch_summarize (modelValid : Bool) (repos : List Repo)
    (outcomes : List SummaryOutcome) : List Repo :=
  if repos.isEmpty then []
  else if !modelValid then repos
  else (repos.zip outcomes).map (fun p => applySummary p.1 p.2)

theorem applySummary_name (r : Repo) (o : SummaryOutcome) :
    (applySummary r o).name = r.name := by
  unfold applySummary
  rcases o with _ | _ | s
  · rfl
  · rfl
  · show (if s = "" then _ else _ : Repo).name = _
    split <;> rfl

theorem applySummary_description (r : Repo) (o : SummaryOutcome) :
    (applySummary r o).description = r.description := by
  unfold applySummary
  rcases o with _ | _ | s
  · rfl
  · rfl
  · show (if s = "" then _ else _ : Repo).description = _
    split <;> rfl

theorem applySummary_fallback (r : Repo) (o : SummaryOutcome)
    (h : o = .exn ∨ o = .result none) :
    (applySummary r o).aiSummary = "摘要生成失败: " ++ r.description ∨
      (applySummary r o).aiSummary = "项目简介: " ++ r.description := by
  rcases h with rfl | rfl
  · exact Or.inl rfl
  · exact Or.inr rfl

theorem zip_get_some {α β : Type} (l1 : List α) (l2 : List β) (i : ℕ)
    (a : α) (b : β) (h1 : l1.get? i = some a) (h2 : l2.get? i = some b) :
    (l1.zip l2).get? i = some (a, b) := by
  induction l1 generalizing l2 i with
  | nil => simp at h1
  | cons x t ih =>
    rcases l2 with _ | ⟨y, u⟩
    · simp at h2
    · rcases i with _ | n
      · simp at h1 h2
        simp [List.zip_cons_cons, h1, h2]
      · simp only [List.get?_cons_succ] at h1 h2
        simpa [List.zip_cons_cons] using ih u n h1 h2

/-- C3: with a usable model and one gather outcome per input,
`batch_summarize` returns exactly one output per input, positionally: the
output at each index is a copy of the input at that index (same name and
description), and whenever the provider calls of an item raised or
exhausted retries, its output text is a fallback marker followed by the
original description of that item.  No failure of one item affects any
other position or the cardinality of the batch. -/
theorem batch_summarize_spec (repos : List Repo)
    (outcomes : List SummaryOutcome)
    (h : outcomes.length = repos.length) :
    (batch_summarize true repos outcomes).length = repos.length ∧
    (∀ i r o, repos.get? i = some r → outcomes.get? i = some o →
      ∃ s, (batch_summarize true repos outcomes).get? i = some s ∧
        s.name = r.name ∧ s.description = r.description ∧
        ((o = .exn ∨ o = .result none) →
          s.aiSummary = "摘要生成失败: " ++ r.description ∨
            s.aiSummary = "项目简介: " ++ r.description)) := by
  constructor
  · rcases repos with _ | ⟨a, t⟩
    · rfl
    · show ((List.zip _ _).map _).length = _
      rw [List.length_map, List.length_zip, h]
      exact Nat.min_self _
  · intro i r o h1 h2
    have hne : repos.isEmpty = false := by
      rcases repos with _ | ⟨a, t⟩
      · simp at h1
      · rfl
    refine ⟨applySummary r o, ?_, applySummary_name r o,
      applySummary_description r o, applySummary_fallback r o⟩
    simp only [batch_summarize, hne, Bool.false_eq_true, if_false,
      Bool.not_true]
    rw [List.get?_map, zip_get_some repos outcomes i r o h1 h2]
    rfl

/-- Concrete batch for the witness: item 2 of 3 exhausts its retries. -/
def batchReposExample : List Repo :=
  [{ name := "r1", description := "d1", stars := 1 },
   { name := "r2", description := "d2", stars := 2 },
   { name := "r3", description := "d3", stars := 3 }]

/-- Outcomes for `batchReposExample`: the middle item returned `None`. -/
def batchOutcomesExample : List SummaryOutcome :=
  [.result (some "ok one"), .result none, .result (some "ok three")]

/-- Witness for `batch_summarize_spec`: 3 inputs yield 3 outputs and the
failed middle item carries its original description behind a fallback
marker. -/
theorem batch_summarize_spec_witness :
    (batch_summarize true batchReposExample batchOutcomesExample).length = 3 ∧
    ∃ s, (batch_summarize true batchReposExample
        batchOutcomesExample).get? 1 = some s ∧
      (s.aiSummary = "摘要生成失败: " ++ "d2" ∨
        s.aiSummary = "项目简介: " ++ "d2") := by
  have h := batch_summarize_spec batchReposExample batchOutcomesExample rfl
  refine ⟨h.1, ?_⟩
  obtain ⟨s, hs, -, -, hfb⟩ := h.2 1
    { name := "r2", description := "d2", stars := 2 } (.result none) rfl rfl
  exact ⟨s, hs, hfb (Or.inr rfl)⟩

/-- Whether `needle` is a leading run of `hay` (character lists). -/
def charsPre : List Char → List Char → Bool
  | [], _ => true
  | _ :: _, [] => false
  | a :: as, b :: bs => a == b && charsPre as bs

/-- The Python substring test `needle in hay` on character lists. -/
def charsContainsSub (needle : List Char) : List Char → Bool
  | [] => charsPre needle []
  | c :: t => charsPre needle (c :: t) || charsContainsSub needle t

/-- The Python substring test `keyword in text` on strings. -/
def strContainsSub (hay needle : String) : Bool :=
  charsContainsSub needle.data hay.data

/-- Subscription configuration read by `KeywordMatcher.__init__`
(`keywords`, `match_fields` defaulting to the `name` and `description`
fields, `case_sensitive` default false). -/
structure KeywordConfig where
  keywords : List String
  matchFields : List String
  caseSensitive : Bool
deriving DecidableEq, Repr

/-- The string value of a configured match field; keyword matching reads an
absent key as the empty string. -/
def repoField (r : Repo) (f : String) : String :=
  if f = "name" then r.name
  else if f = "description" then r.description
  else if f = "language" then r.language
  else ""

/-- Python `str.lower()` (over the ASCII range the inputs of this pipeline
use). -/
def pyLower (s : String) : String := ⟨s.data.map Char.toLower⟩

/-- Models `KeywordMatcher._exact_match`: substring containment, lowercasing both
sides unless case-sensitive. -/
def exactMatch (caseSensitive : Bool) (text keyword : String) : Bool :=
  if caseSensitive then strContainsSub text keyword
  else strContainsSub (pyLower text) (pyLower keyword)

/-- Models `KeywordMatcher.match_keyword` in the exact mode (the regex and fuzzy
modes swap in a different per-string predicate; the claims here do not
depend on which one is configured): empty text or keyword never matches. -/
def matchKeyword (cfg : KeywordConfig) (text keyword : String) : Bool :=
  if text = "" || keyword = "" then false
  else exactMatch cfg.caseSensitive text keyword

/-- The `matched` flag of `KeywordMatcher.match_repo`: some configured field
is non-empty and matches some configured keyword. -/
def matchRepo (cfg : KeywordConfig) (r : Repo) : Bool :=
  cfg.matchFields.any fun f =>
    !(repoField r f == "") &&
      cfg.keywords.any fun kw => matchKeyword cfg (repoField r f) kw

/-- Models `KeywordMatcher.filter_repos`: empty input or empty keyword list passes
through; otherwise keep the matching repos. -/
def filter_repos (cfg : KeywordConfig) (repos : List Repo) : List Repo :=
  if repos.isEmpty || cfg.keywords.isEmpty then repos
  else repos.filter (matchRepo cfg)

/-- The keyword-narrowing stage of `TrendingPush.run_task_async`: it runs
`filter_repos` only when keywords are configured, and adopts its output
only when at least one candidate matched (`if matched_repos:`). -/
def keywordStage (cfg : KeywordConfig) (repos : List Repo) : List Repo :=
  if !cfg.keywords.isEmpty then
    if !(filter_repos cfg repos).isEmpty then filter_repos cfg repos
    else repos
  else repos

/-- The keyword configuration of the counterexample: one keyword that
matches nothing in the candidate below. -/
def keywordCfgExample : KeywordConfig :=
  { keywords := ["rust"]
    matchFields := ["name", "description"]
    caseSensitive := false }

/-- A candidate matching no keyword of `keywordCfgExample`. -/
def nonMatchingRepoExample : Repo :=
  { name := "foo", description := "bar", stars := 10 }

/-- C8 counterexample: with a non-empty keyword configuration and a
candidate list in which nothing matches, the pipeline stage returns the
original list, so a non-matching candidate does proceed past the keyword
stage — refuting the claim that the stage always narrows to matches
only. -/
theorem keywordStage_nonmatch_passthrough :
    keywordCfgExample.keywords ≠ [] ∧
    matchRepo keywordCfgExample nonMatchingRepoExample = false ∧
    keywordStage keywordCfgExample [nonMatchingRepoExample] =
      [nonMatchingRepoExample] := by
  refine ⟨by decide, by decide, by decide⟩

theorem isEmpty_false_of_ne_nil {α : Type} (l : List α) (h : l ≠ []) :
    l.isEmpty = false := by
  rcases l with _ | ⟨a, t⟩
  · exact absurd rfl h
  · rfl

/-- C8 (amended): an empty keyword configuration passes every candidate
through unchanged; a non-empty one narrows the set to exactly the matching
candidates whenever at least one candidate matches; when no candidate
matches, the stage falls back to passing the original candidate list
through unchanged. -/
theorem keywordStage_spec (cfg : KeywordConfig) (repos : List Repo) :
    (cfg.keywords = [] → keywordStage cfg repos = repos) ∧
    (cfg.keywords ≠ [] → repos.filter (matchRepo cfg) ≠ [] →
      keywordStage cfg repos = repos.filter (matchRepo cfg)) ∧
    (cfg.keywords ≠ [] → repos.filter (matchRepo cfg) = [] →
      keywordStage cfg repos = repos) := by
  refine ⟨?_, ?_, ?_⟩
  · intro h
    simp [keywordStage, h]
  · intro h1 h2
    have hki := isEmpty_false_of_ne_nil cfg.keywords h1
    have hrne : repos ≠ [] := by
      intro h
      rw [h] at h2
      exact h2 rfl
    have hri := isEmpty_false_of_ne_nil repos hrne
    have hfi := isEmpty_false_of_ne_nil _ h2
    simp [keywordStage, filter_repos, hki, hri, hfi]
  · intro h1 h2
    have hki := isEmpty_false_of_ne_nil cfg.keywords h1
    rcases repos with _ | ⟨a, t⟩
    · simp [keywordStage, filter_repos, hki]
    · simp [keywordStage, filter_repos, hki, h2]

/-- Witness for `keywordStage_spec`: when a candidate does match, the stage
narrows the list to the matches. -/
theorem keywordStage_spec_witness :
    keywordStage keywordCfgExample
      [{ name := "rust-lang", description := "x", stars := 1 },
       nonMatchingRepoExample] =
      [{ name := "rust-lang", description := "x", stars := 1 }] := by
  have h := (keywordStage_spec keywordCfgExample
    [{ name := "rust-lang", description := "x", stars := 1 },
     nonMatchingRepoExample]).2.1 (by decide) (by decide)
  rw [h]
  decide

/-- Python `str.strip()`: drop whitespace from both ends. -/
def pyStrip (s : String) : String :=
  ⟨((s.data.dropWhile Char.isWhitespace).reverse.dropWhile
      Char.isWhitespace).reverse⟩

/-- The Python replace-with-empty step: drop every occurrence of `c`. -/
def removeChar (c : Char) (s : String) : String :=
  ⟨s.data.filter (fun x => x != c)⟩

/-- Python `c in s` for a single character. -/
def strContainsChar (s : String) (c : Char) : Bool :=
  s.data.any (fun x => x == c)

/-- Digits read in base 10. -/
def parseDigits (cs : List Char) : ℕ :=
  cs.foldl (fun acc c => 10 * acc + (c.toNat - 48)) 0

/-- An exact decimal `mantissa / 10 ^ exponent`, the value a Python
`float()` denotes on the decimal literals this pipeline feeds it (on these
inputs and the scalings below, binary floating point is exact through the
final `int()`). -/
structure PyDecimal where
  mantissa : ℤ
  exponent : ℕ
deriving DecidableEq, Repr

/-- Python `float(s)` on an unsigned decimal literal: digits with at most
one dot and at least one digit; anything else raises (`none`). -/
def pyFloatCore (cs : List Char) : Option PyDecimal :=
  if !cs.all (fun c => c.isDigit || c == '.') then none
  else if 2 ≤ (cs.filter (fun c => c == '.')).length then none
  else if (cs.filter Char.isDigit).length = 0 then none
  else
    let ip := cs.takeWhile (fun c => c != '.')
    let fp := (cs.dropWhile (fun c => c != '.')).drop 1
    some ⟨(parseDigits ip : ℤ) * 10 ^ fp.length + (parseDigits fp : ℤ),
      fp.length⟩

/-- Python `float(s)` on decimal literals, with an optional sign (exponent
forms and `inf`/`nan` do not occur in the inputs of this pipeline). -/
def pyFloat (s : String) : Option PyDecimal :=
  match s.data with
  | '-' :: rest => (pyFloatCore rest).map (fun d => ⟨-d.mantissa, d.exponent⟩)
  | '+' :: rest => pyFloatCore rest
  | cs => pyFloatCore cs

/-- Multiplication of the parsed value by an integer scale (the `* 1000` /
`* 1000000` steps), exact on decimals. -/
def decimalMulNat (d : PyDecimal) (n : ℕ) : PyDecimal :=
  ⟨d.mantissa * (n : ℤ), d.exponent⟩

/-- Python `int(f)`: truncation toward zero. -/
def pyInt (d : PyDecimal) : ℤ := Int.tdiv d.mantissa (10 ^ d.exponent)

/-- First maximal run of digit-or-dot characters, the first match the
digits-and-dots regex of `re.findall` returns. -/
def firstNumberRun : List Char → Option (List Char)
  | [] => none
  | c :: t =>
    if c.isDigit || c == '.' then
      some ((c :: t).takeWhile (fun x => x.isDigit || x == '.'))
    else firstNumberRun t

/-- Models `parse_github_number` from `src/collectors/utils.py`: empty text is 0;
commas are removed and the text stripped; a 'k' anywhere (case-folded)
scales the remaining number by 1,000 and an 'm' by 1,000,000; otherwise the
first digit run is extracted; any parse failure yields 0. -/
def parse_github_number (text : String) : ℤ :=
  if text = "" then 0
  else
    let t := pyStrip (removeChar ',' text)
    let lower := pyLower t
    if strContainsChar lower 'k' then
      match pyFloat (removeChar 'k' lower) with
      | some q => pyInt (decimalMulNat q 1000)
      | none => 0
    else if strContainsChar lower 'm' then
      match pyFloat (removeChar 'm' lower) with
      | some q => pyInt (decimalMulNat q 1000000)
      | none => 0
    else
      match firstNumberRun t.data with
      | none => 0
      | some run =>
        match pyFloat ⟨run⟩ with
        | some q => pyInt q
        | none => 0

/-- C9: the compact-number decoder realises the documented mapping on each
listed input — thousands separators, 'k'/'m' suffixes with case folding,
bare digit extraction, and 0 for empty or unparseable text. -/
theorem parse_github_number_examples :
    parse_github_number "1,234" = 1234 ∧
    parse_github_number "1.2k" = 1200 ∧
    parse_github_number "5K" = 5000 ∧
    parse_github_number "1.5m" = 1500000 ∧
    parse_github_number "" = 0 ∧
    parse_github_number "Built by" = 0 ∧
    parse_github_number "89 stars today" = 89 := by
  refine ⟨?_, ?_, ?_, ?_, ?_, ?_, ?_⟩ <;> decide
